import Mathlib

/-!
Verification of the data normalization and aggregation pipeline of the Seoul
crime-map dashboard (`src/streamlit_app.py`).

The pipeline is shallowly embedded: tables are lists of records, pandas
operations become list transformations, numeric cells are rationals, and the
raw values of a freshly loaded CSV column are modelled by `RawCount`
(a numeric value, a non-numeric text value, or a missing cell).
-/

namespace CrimeMap

/-! ## Python string primitives used by line 48 and line 51

`Series.str.strip` trims leading and trailing whitespace;
`Series.str.replace(pat, '')` removes every non-overlapping occurrence of
`pat`, scanning left to right.  Strings are modelled as `List Char`.
-/

/-- A whitespace character, as Python's `str.strip` sees it. -/
def pySpace (c : Char) : Bool := c.isWhitespace

/-- Python `str.strip()`: drop whitespace from the front, then from the back
(the back side via `reverse`). -/
def pyStrip (s : List Char) : List Char :=
  ((s.dropWhile pySpace).reverse.dropWhile pySpace).reverse

/-- Does `s` start with `pat`? (Python `str.startswith`.) -/
def startsWithChars : List Char → List Char → Bool
  | [], _ => true
  | _ :: _, [] => false
  | p :: ps, c :: cs => p == c && startsWithChars ps cs

/-- One fuelled pass of Python `str.replace(pat, '')`: at each position, if
`pat` matches, drop it and continue scanning after the match (non-overlapping,
left to right); otherwise keep the character.  Fuel `s.length` suffices since
every step consumes at least one character. -/
def pyReplaceFuel (pat : List Char) : Nat → List Char → List Char
  | 0, s => s
  | _ + 1, [] => []
  | fuel + 1, c :: rest =>
    if pat ≠ [] ∧ startsWithChars pat (c :: rest) = true then
      pyReplaceFuel pat fuel ((c :: rest).drop pat.length)
    else
      c :: pyReplaceFuel pat fuel rest

/-- Python `s.replace(pat, '')`. -/
def pyReplace (pat s : List Char) : List Char :=
  pyReplaceFuel pat s.length s

/-- Python `pat in s`: does `pat` occur as a contiguous substring of `s`? -/
def hasSub (pat : List Char) : List Char → Bool
  | [] => pat.isEmpty
  | c :: rest => startsWithChars pat (c :: rest) || hasSub pat rest

/-- The jurisdiction literal stripped from crime-table region keys
(line 48: `.str.replace('서울', '')`). -/
def seoulLit : List Char := "서울".toList

/-- Line 48: normalization of the crime table's 시군구 keys —
remove every occurrence of `서울`, then trim whitespace. -/
def normCrimeChars (s : List Char) : List Char :=
  pyStrip (pyReplace seoulLit s)

/-- Line 51: normalization of the coordinate table's 시군구 keys —
trim whitespace only. -/
def normCoordChars (s : List Char) : List Char :=
  pyStrip s

/-- String-level wrapper for the crime-side key normalization (line 48). -/
def normCrimeKey (s : String) : String :=
  (normCrimeChars s.toList).asString

/-- String-level wrapper for the coordinate-side key normalization (line 51). -/
def normCoordKey (s : String) : String :=
  (normCoordChars s.toList).asString

/-- Python `pat in s` on strings. -/
def hasSubStr (pat s : String) : Bool :=
  hasSub pat.toList s.toList

/-! ## Data model -/

/-- A raw CSV cell destined for the count column: a parsed number, a
non-numeric text value, or a missing cell (NaN). -/
inductive RawCount
  | num (q : ℚ)
  | nonNumeric
  | missing
deriving DecidableEq

/-- Line 71: `pd.to_numeric(…, errors='coerce').fillna(0)` — parse-or-zero
coercion of a count cell. -/
def toNumericOrZero : RawCount → ℚ
  | .num q => q
  | .nonNumeric => 0
  | .missing => 0

/-- A row of the wide-format crime table: the two identifier cells
(범죄대분류, 범죄중분류) and one cell per region column. -/
structure WideRow where
  major : String
  minor : String
  cells : List RawCount
deriving DecidableEq

/-- The wide-format crime table: the region column labels and the data rows. -/
structure WideTable where
  regionCols : List String
  rows : List WideRow
deriving DecidableEq

/-- A row of the long (tidy) crime table produced by `pd.melt` (lines 33-36). -/
structure LongRow where
  major : String
  minor : String
  region : String
  count : RawCount
deriving DecidableEq

/-- Lines 33-36: `pd.melt(df_crime, id_vars=id_cols, var_name='시군구',
value_name='횟수')`.  pandas stacks the un-pivoted columns one after
another: for each region column (in order), one output row per input row
(in order), carrying that row's identifiers, the column label as 시군구 and
the cell as 횟수. -/
def melt (t : WideTable) : List LongRow :=
  t.regionCols.enum.flatMap fun p =>
    t.rows.map fun r =>
      { major := r.major, minor := r.minor, region := p.2,
        count := r.cells.getD p.1 .missing }

/-- Line 48 applied to the melted crime table: normalize the 시군구 column. -/
def normalizeCrimeRegions (l : List LongRow) : List LongRow :=
  l.map fun r => { r with region := normCrimeKey r.region }

/-- A row of the coordinate table (전국 중심 좌표데이터). -/
structure CoordRow where
  sido : String
  sigungu : String
  lat : ℚ
  lon : ℚ
deriving DecidableEq

/-- A per-region centroid: a row of `df_gu_coord` (lines 54-57). -/
structure Centroid where
  region : String
  lat : ℚ
  lon : ℚ
deriving DecidableEq

/-- Arithmetic mean of a list of rationals (pandas `mean`). -/
def meanQ (l : List ℚ) : ℚ := l.sum / l.length

/-- Lines 42 and 51: the coordinate table filtered to 시도 == '서울특별시'
with its 시군구 keys stripped. -/
def seoulNormalized (coords : List CoordRow) : List CoordRow :=
  (coords.filter (fun c => c.sido == "서울특별시")).map
    (fun c => { c with sigungu := normCoordKey c.sigungu })

/-- Lines 54-57: group the filtered, normalized coordinate rows by 시군구,
taking the mean latitude and longitude of each group.  The group keys are
the distinct 시군구 values; their order is irrelevant to every property
proved here. -/
def guCoords (coords : List CoordRow) : List Centroid :=
  (((seoulNormalized coords).map (·.sigungu)).dedup).map fun k =>
    { region := k,
      lat := meanQ (((seoulNormalized coords).filter
        (fun c => c.sigungu == k)).map (·.lat)),
      lon := meanQ (((seoulNormalized coords).filter
        (fun c => c.sigungu == k)).map (·.lon)) }

/-- A crime row after the left merge (lines 60-63): coordinates are present
exactly when the region key matched a centroid. -/
structure MergedRow where
  major : String
  minor : String
  region : String
  count : RawCount
  coords : Option (ℚ × ℚ)
deriving DecidableEq

/-- Lines 60-63: `pd.merge(df_crime, df_gu_coord, on='시군구', how='left')`.
A left row is kept once with empty coordinates when no centroid matches and
is repeated once per matching centroid otherwise (in the pipeline the
centroid table has unique keys, so each left row is kept exactly once). -/
def leftMerge (crime : List LongRow) (cents : List Centroid) : List MergedRow :=
  crime.flatMap fun r =>
    if (cents.filter (fun c => c.region == r.region)).isEmpty then
      [{ major := r.major, minor := r.minor, region := r.region,
         count := r.count, coords := none }]
    else
      (cents.filter (fun c => c.region == r.region)).map fun c =>
        { major := r.major, minor := r.minor, region := r.region,
          count := r.count, coords := some (c.lat, c.lon) }

/-- A fully processed record: a row of `df_merged` after line 71. -/
structure Row where
  major : String
  minor : String
  region : String
  count : ℚ
  coords : Option (ℚ × ℚ)
deriving DecidableEq

/-- Line 71: coerce the 횟수 column with parse-or-zero semantics. -/
def coerceCounts (l : List MergedRow) : List Row :=
  l.map fun m =>
    { major := m.major, minor := m.minor, region := m.region,
      count := toNumericOrZero m.count, coords := m.coords }

/-- Line 72: `dropna(subset=['위도','경도'])` — keep exactly the rows that
acquired coordinates. -/
def dropUnmatched (l : List Row) : List Row :=
  l.filter (fun r => r.coords.isSome)

/-- The merged-and-coerced table: `df_merged` after line 71, before the
dropna of line 72. -/
def mergedTable (crime : List LongRow) (cents : List Centroid) : List Row :=
  coerceCounts (leftMerge crime cents)

/-- The final table returned by `load_data` (line 74). -/
def joinedTable (crime : List LongRow) (cents : List Centroid) : List Row :=
  dropUnmatched (mergedTable crime cents)

/-- The merge row built from a crime row whose key found no centroid. -/
def unmatchedRow (r : LongRow) : Row :=
  { major := r.major, minor := r.minor, region := r.region,
    count := toNumericOrZero r.count, coords := none }

/-- Single-key lookup into the centroid table. -/
def centLookup (cents : List Centroid) (k : String) : Option Centroid :=
  cents.find? (fun c => c.region == k)

/-! ## Aggregation engine (map-mode block, lines 148-196) -/

/-- A row of `df_map` (lines 148-152): the per-region total and the carried
coordinates (pandas `'first'` takes the first non-null value of the group). -/
structure AggRow where
  region : String
  total : ℚ
  coords : Option (ℚ × ℚ)
deriving DecidableEq

/-- Lines 148-152: group by 시군구, summing 횟수 into `total_count` and
taking the first coordinates of each group. -/
def aggByRegion (l : List Row) : List AggRow :=
  ((l.map (·.region)).dedup).map fun k =>
    let g := l.filter (fun r => r.region == k)
    { region := k,
      total := (g.map (·.count)).sum,
      coords := (g.filterMap (·.coords)).head? }

/-- The `'first'`-selected coordinates of the group of key `k`
(lines 150-151), as a function of the key. -/
def aggCoordOf (l : List Row) (k : String) : Option (ℚ × ℚ) :=
  ((l.filter (fun r => r.region == k)).filterMap (·.coords)).head?

/-- A `df_map` row extended with the 비율 column of line 162. -/
structure ShareRow where
  region : String
  total : ℚ
  share : ℚ
deriving DecidableEq

/-- Lines 154-162: the map-mode share computation.  When `df_map` is empty
or its grand total is zero, the warning branch of line 155 is taken and the
비율 column is never computed (`none`); otherwise every region gets
비율 = total_count / grand-total * 100. -/
def mapModeShares (l : List Row) : Option (List ShareRow) :=
  let m := aggByRegion l
  let s := (m.map (·.total)).sum
  if m.isEmpty || s == 0 then none
  else some (m.map fun r =>
    { region := r.region, total := r.total, share := r.total / s * 100 })

/-- Marker highlight kinds of the map loop (lines 188-196). -/
inductive Highlight
  | maxExtreme
  | minExtreme
  | plain
deriving DecidableEq

/-- Lines 191-196: a marker is highlighted black when its count equals the
maximum (and the maximum is positive), and otherwise white when its count
equals the minimum and the minimum is strictly below the maximum. -/
def markerHighlight (count minCount maxCount : ℚ) : Highlight :=
  if count = maxCount ∧ 0 < maxCount then .maxExtreme
  else if count = minCount ∧ minCount < maxCount then .minExtreme
  else .plain

/-! ## Encoding-resilient loader (lines 10-19 and 76-85) -/

/-- The candidate encodings of line 10, in their fixed order. -/
def encodings : List String := ["utf-8", "cp949", "euc-kr"]

/-- Python exceptions relevant to the handlers of `load_data`. -/
inductive PyExc
  | unicodeDecodeError (reason : String)
  | keyError (msg : String)
  | typeError (msg : String)
  | otherError (msg : String)
deriving DecidableEq

/-- Evaluating a Python `UnicodeDecodeError(args…)` constructor call: the
constructor requires exactly five arguments (encoding, object, start, end,
reason), and a call with any other arity itself raises
`TypeError('function takes exactly 5 arguments (n given)')`.  Line 19 calls
it with a single argument. -/
def raiseUnicodeDecodeError (args : List String) : PyExc :=
  if args.length = 5 then
    .unicodeDecodeError (args.getD 4 "")
  else
    .typeError ("function takes exactly 5 arguments ("
      ++ toString args.length ++ " given)")

/-- The message built at line 19. -/
def decodeFailMsg (filePath : String) : String :=
  "'" ++ filePath ++ "' 파일을 지원되는 인코딩으로 읽을 수 없습니다."

/-- Lines 13-19, the loop of `try_read_csv`: try each encoding in order and
return the first successfully parsed table; when the candidates are
exhausted, evaluate `raise UnicodeDecodeError(msg)` (one argument). -/
def tryReadCsvAux {α : Type} (parse : String → Option α) (filePath : String) :
    List String → Except PyExc α
  | [] => .error (raiseUnicodeDecodeError [decodeFailMsg filePath])
  | enc :: rest =>
    match parse enc with
    | some t => .ok t
    | none => tryReadCsvAux parse filePath rest

/-- Lines 10-19: `try_read_csv` over the fixed candidate list.  `parse enc`
models `pd.read_csv(file_path, encoding=enc, header=0)` succeeding or
raising for that encoding. -/
def tryReadCsv {α : Type} (parse : String → Option α) (filePath : String) :
    Except PyExc α :=
  tryReadCsvAux parse filePath encodings

/-- Lines 76-85, the exception handlers of `load_data`: the returned table
paired with the diagnostic produced.  A `UnicodeDecodeError` hits the
encoding handler of line 76, a `KeyError` the structure handler of line 79,
anything else the generic handler of line 83; every handler returns the
empty table. -/
def loadDataHandle {α : Type} (emptyTable : α) : Except PyExc α → α × String
  | .ok t => (t, "")
  | .error (.unicodeDecodeError _) => (emptyTable, "Fatal Error: CSV 파일 인코딩 오류.")
  | .error (.keyError _) => (emptyTable, "Critical Error: 데이터 구조 오류 발생!")
  | .error _ => (emptyTable, "Data Processing Error: 데이터 처리 중 일반 오류 발생")

/-- A parse function on which every candidate encoding fails. -/
def parseNever : String → Option (List LongRow) := fun _ => none

/-- A parse function that succeeds only for the last candidate, euc-kr. -/
def parseOnlyEucKr : String → Option (List LongRow) := fun enc =>
  if enc == "euc-kr" then some [⟨"절도", "침입절도", "강남구", .num 10⟩] else none

/-- A parse function on which every candidate encoding succeeds, tagging the
table with the encoding used. -/
def parseAlways : String → Option (List LongRow) := fun enc =>
  some [{ major := enc, minor := "", region := "", count := .missing }]

/-- Number of positions of `s` at which `pat` matches. -/
def subOccurrences (pat : List Char) : List Char → Nat
  | [] => if pat.isEmpty then 1 else 0
  | c :: rest =>
    (if startsWithChars pat (c :: rest) then 1 else 0) + subOccurrences pat rest

/-! ## Concrete example tables used by witnesses and counterexamples -/

/-- A one-record joined table whose single count is zero. -/
def zeroCountRows : List Row :=
  [{ major := "절도", minor := "침입절도", region := "강남구",
     count := 0, coords := some (37, 127) }]

/-- A two-region joined table with positive counts 10 and 5. -/
def twoRegionRows : List Row :=
  [{ major := "절도", minor := "침입절도", region := "강남구",
     count := 10, coords := some (37, 127) },
   { major := "절도", minor := "침입절도", region := "노원구",
     count := 5, coords := some (38, 127) }]

/-- A two-row normalized crime table: 강남구 matches the example centroid
table, 중랑구 does not. -/
def exCrime : List LongRow :=
  [{ major := "절도", minor := "침입절도", region := "강남구", count := .num 10 },
   { major := "폭력", minor := "상해", region := "중랑구", count := .nonNumeric }]

/-- A one-region centroid table for 강남구. -/
def exCents : List Centroid :=
  [{ region := "강남구", lat := 37, lon := 127 }]

/-- A raw coordinate table: two samples for Seoul's 강남구 (one with
trailing whitespace in the key) and one non-Seoul row. -/
def exCoords : List CoordRow :=
  [{ sido := "서울특별시", sigungu := "강남구", lat := 37, lon := 127 },
   { sido := "서울특별시", sigungu := "강남구 ", lat := 38, lon := 128 },
   { sido := "경기도", sigungu := "수원시", lat := 37, lon := 127 }]

/-- A two-row crime table whose rows share the region 강남구. -/
def exCrime2 : List LongRow :=
  [{ major := "절도", minor := "침입절도", region := "강남구", count := .num 10 },
   { major := "폭력", minor := "상해", region := "강남구", count := .num 7 }]

/-- A one-sample coordinate table for Seoul's 강남구. -/
def exCoords2 : List CoordRow :=
  [{ sido := "서울특별시", sigungu := "강남구", lat := 37, lon := 127 }]

example : normCrimeKey "서울종로구" = "종로구" := by decide
example : normCoordKey "서울종로구" = "서울종로구" := by decide
example : normCrimeKey " 종로구 " = "종로구" := by decide
example : normCrimeKey "서서울울" = "서울" := by decide
example : normCrimeKey "서울" = "" := by decide
example : hasSubStr "서울" "강남구" = false := by decide

/-! ### Lemmas about the Python string primitives -/

theorem startsWithChars_iff : ∀ (pat s : List Char),
    startsWithChars pat s = true ↔ ∃ t, s = pat ++ t := by
  intro pat
  induction pat with
  | nil => intro s; simp [startsWithChars]
  | cons p ps ih =>
    intro s
    cases s with
    | nil => simp [startsWithChars]
    | cons c cs =>
      simp only [startsWithChars, Bool.and_eq_true, beq_iff_eq, List.cons_append]
      constructor
      · rintro ⟨rfl, hsw⟩
        obtain ⟨t, rfl⟩ := (ih cs).1 hsw
        exact ⟨t, rfl⟩
      · rintro ⟨t, ht⟩
        injection ht with h1 h2
        exact ⟨h1.symm, (ih cs).2 ⟨t, h2⟩⟩

theorem hasSub_iff (pat : List Char) : ∀ s, hasSub pat s = true ↔ ∃ x y, s = x ++ pat ++ y := by
  intro s
  induction s with
  | nil =>
    constructor
    · intro h
      have hp : pat = [] := by simpa [hasSub, List.isEmpty_iff] using h
      exact ⟨[], [], by simp [hp]⟩
    · rintro ⟨x, y, hxy⟩
      cases x with
      | cons _ _ => simp at hxy
      | nil =>
        simp only [List.nil_append] at hxy
        cases pat with
        | cons _ _ => simp at hxy
        | nil => rfl
  | cons c cs ih =>
    simp only [hasSub, Bool.or_eq_true]
    constructor
    · rintro (hsw | hrest)
      · obtain ⟨t, ht⟩ := (startsWithChars_iff pat _).1 hsw
        exact ⟨[], t, by simp [ht]⟩
      · obtain ⟨x, y, hxy⟩ := ih.1 hrest
        exact ⟨c :: x, y, by simp [hxy]⟩
    · rintro ⟨x, y, hxy⟩
      cases x with
      | nil =>
        left
        exact (startsWithChars_iff pat _).2 ⟨y, by simpa using hxy⟩
      | cons d ds =>
        right
        rw [List.cons_append, List.cons_append] at hxy
        injection hxy with h1 h2
        exact ih.2 ⟨ds, y, by simpa using h2⟩

theorem pyReplaceFuel_of_not_hasSub (pat : List Char) :
    ∀ (n : Nat) (s : List Char), hasSub pat s = false → pyReplaceFuel pat n s = s := by
  intro n
  induction n with
  | zero => intro s _; rfl
  | succ n ih =>
    intro s h
    cases s with
    | nil => rfl
    | cons c cs =>
      have h' : startsWithChars pat (c :: cs) = false ∧ hasSub pat cs = false := by
        simpa [hasSub, Bool.or_eq_false_iff] using h
      rw [pyReplaceFuel, if_neg]
      · exact congrArg (c :: ·) (ih cs h'.2)
      · rintro ⟨_, hsw⟩
        rw [h'.1] at hsw
        exact Bool.false_ne_true hsw

/-- If the pattern does not occur in `s`, Python `replace` leaves `s` alone. -/
theorem pyReplace_of_not_hasSub (pat s : List Char) (h : hasSub pat s = false) :
    pyReplace pat s = s :=
  pyReplaceFuel_of_not_hasSub pat s.length s h

theorem head?_dropWhile_not (p : α → Bool) :
    ∀ (l : List α) (c : α), (l.dropWhile p).head? = some c → p c = false := by
  intro l
  induction l with
  | nil => intro c hc; simp [List.dropWhile] at hc
  | cons a t ih =>
    intro c hc
    by_cases hp : p a
    · rw [List.dropWhile_cons_of_pos hp] at hc
      exact ih c hc
    · rw [List.dropWhile_cons_of_neg hp] at hc
      simp only [List.head?_cons, Option.some.injEq] at hc
      rw [← hc]
      exact Bool.of_not_eq_true hp

theorem dropWhile_eq_self_of_head? (p : α → Bool) (l : List α)
    (h : ∀ c, l.head? = some c → p c = false) : l.dropWhile p = l := by
  cases l with
  | nil => rfl
  | cons a t =>
    have := h a rfl
    simp [List.dropWhile, this]

theorem getLast?_dropWhile (p : α → Bool) :
    ∀ l : List α, l.dropWhile p ≠ [] → (l.dropWhile p).getLast? = l.getLast? := by
  intro l
  induction l with
  | nil => intro h; simp [List.dropWhile] at h
  | cons a t ih =>
    intro h
    by_cases hp : p a
    · rw [List.dropWhile_cons_of_pos hp] at h ⊢
      have ht : t ≠ [] := by
        intro ht; rw [ht] at h; simp [List.dropWhile] at h
      rw [ih h]
      cases t with
      | nil => exact absurd rfl ht
      | cons b u => rw [List.getLast?_cons_cons]
    · rw [List.dropWhile_cons_of_neg hp]

/-- Stripping is idempotent. -/
theorem pyStrip_idem (s : List Char) : pyStrip (pyStrip s) = pyStrip s := by
  have hdef : pyStrip s = ((s.dropWhile pySpace).reverse.dropWhile pySpace).reverse := rfl
  by_cases h2 : (s.dropWhile pySpace).reverse.dropWhile pySpace = []
  · rw [hdef, h2]
    rfl
  · have hhead : ∀ c,
        (((s.dropWhile pySpace).reverse.dropWhile pySpace).reverse).head? = some c →
          pySpace c = false := by
      intro c hc
      rw [List.head?_reverse, getLast?_dropWhile _ _ h2, List.getLast?_reverse] at hc
      exact head?_dropWhile_not pySpace s c hc
    rw [hdef, pyStrip, dropWhile_eq_self_of_head? _ _ hhead, List.reverse_reverse,
      dropWhile_eq_self_of_head? _ _ (fun c hc =>
        head?_dropWhile_not pySpace (s.dropWhile pySpace).reverse c hc)]

/-- The stripped string sits contiguously inside the original. -/
theorem pyStrip_span (s : List Char) : ∃ a b, s = a ++ pyStrip s ++ b := by
  refine ⟨s.takeWhile pySpace, ((s.dropWhile pySpace).reverse.takeWhile pySpace).reverse, ?_⟩
  have h1 : pyStrip s ++ ((s.dropWhile pySpace).reverse.takeWhile pySpace).reverse
      = s.dropWhile pySpace := by
    rw [pyStrip, ← List.reverse_append, List.takeWhile_append_dropWhile, List.reverse_reverse]
  rw [List.append_assoc, h1, List.takeWhile_append_dropWhile]

/-- A pattern absent from `s` is also absent from the stripped `s`. -/
theorem hasSub_pyStrip (pat s : List Char) (h : hasSub pat s = false) :
    hasSub pat (pyStrip s) = false := by
  by_contra hc
  have ht : hasSub pat (pyStrip s) = true := by
    cases hb : hasSub pat (pyStrip s) with
    | false => exact absurd hb hc
    | true => rfl
  obtain ⟨x, y, hxy⟩ := (hasSub_iff pat _).1 ht
  obtain ⟨a, b, hab⟩ := pyStrip_span s
  rw [hxy] at hab
  have : hasSub pat s = true := by
    refine (hasSub_iff pat s).2 ⟨a ++ x, y ++ b, ?_⟩
    rw [hab]
    simp [List.append_assoc]
  rw [h] at this
  exact Bool.false_ne_true this

/-- Lists built by `asString` convert back to the same characters. -/
theorem toList_asString (l : List Char) : (List.asString l).toList = l := rfl

/-! ### Lemmas about flatMap over constant-length blocks -/

theorem length_flatMap_const {α β : Type} (f : α → List β) (R : Nat) :
    ∀ l : List α, (∀ a ∈ l, (f a).length = R) →
      (l.flatMap f).length = l.length * R := by
  intro l
  induction l with
  | nil => intro _; simp
  | cons b t ih =>
    intro h
    rw [List.flatMap_cons, List.length_append, h b (List.mem_cons_self b t),
      ih (fun a ha => h a (List.mem_cons_of_mem _ ha)), List.length_cons,
      Nat.succ_mul]
    omega

theorem getElem?_flatMap_const {α β : Type} (f : α → List β) (R : Nat) :
    ∀ l : List α, (∀ a ∈ l, (f a).length = R) →
    ∀ (j i : Nat) (a : α), l[j]? = some a → i < R →
      (l.flatMap f)[j * R + i]? = (f a)[i]? := by
  intro l
  induction l with
  | nil =>
    intro _ j i a ha _
    simp at ha
  | cons b t ih =>
    intro h j i a ha hi
    rw [List.flatMap_cons]
    cases j with
    | zero =>
      simp only [List.getElem?_cons_zero, Option.some.injEq] at ha
      subst ha
      rw [Nat.zero_mul, Nat.zero_add]
      exact List.getElem?_append_left (by rw [h b (List.mem_cons_self b t)]; exact hi)
    | succ j' =>
      simp only [List.getElem?_cons_succ] at ha
      have hlen : (f b).length = R := h b (List.mem_cons_self b t)
      have hmul : (j' + 1) * R = j' * R + R := Nat.succ_mul j' R
      rw [List.getElem?_append_right (by omega)]
      have harith : (j' + 1) * R + i - (f b).length = j' * R + i := by omega
      rw [harith]
      exact ih (fun x hx => h x (List.mem_cons_of_mem _ hx)) j' i a ha hi

/-- The melted table at flat position `j * R + i` is exactly the record made
from input row `i` and region column `j` (pandas stacks the un-pivoted
columns one block per column, each block in input row order). -/
theorem melt_getElem? (t : WideTable) (i j : Nat) (hi : i < t.rows.length)
    (hj : j < t.regionCols.length) :
    (melt t)[j * t.rows.length + i]? =
      some { major := (t.rows.get ⟨i, hi⟩).major,
             minor := (t.rows.get ⟨i, hi⟩).minor,
             region := t.regionCols.get ⟨j, hj⟩,
             count := (t.rows.get ⟨i, hi⟩).cells.getD j .missing } := by
  have henum : t.regionCols.enum[j]? = some (j, t.regionCols.get ⟨j, hj⟩) := by
    rw [List.enum_eq_enumFrom, List.getElem?_enumFrom, List.getElem?_eq_getElem hj]
    simp
  unfold melt
  rw [getElem?_flatMap_const _ t.rows.length t.regionCols.enum
    (fun p _ => List.length_map _ _) j i _ henum hi]
  rw [List.getElem?_map, List.getElem?_eq_getElem hi]
  rfl

/-! ## Claim C2 — wide-to-long reshape fan-out law -/

/-- C2: for a wide crime table with `R` rows and `K` region columns (each row
rectangular), the melt of lines 33-36 yields exactly `R * K` rows, and for
every input row `i` and region column `j` there is exactly one output row —
the one at flat position `j * R + i` — carrying that row's identifiers, the
column label as 시군구 and that cell's value as 횟수; no rows are dropped or
merged. -/
theorem c2_melt_fanout (t : WideTable)
    (hw : ∀ r ∈ t.rows, r.cells.length = t.regionCols.length) :
    (melt t).length = t.rows.length * t.regionCols.length ∧
    ∀ (i j : Nat) (hi : i < t.rows.length) (hj : j < t.regionCols.length),
      ∃ v : RawCount,
        ((t.rows.get ⟨i, hi⟩).cells)[j]? = some v ∧
        (melt t)[j * t.rows.length + i]? =
          some { major := (t.rows.get ⟨i, hi⟩).major,
                 minor := (t.rows.get ⟨i, hi⟩).minor,
                 region := t.regionCols.get ⟨j, hj⟩,
                 count := v } := by
  constructor
  · have h := length_flatMap_const
      (fun p : Nat × String => t.rows.map fun r =>
        ({ major := r.major, minor := r.minor, region := p.2,
           count := r.cells.getD p.1 .missing } : LongRow))
      t.rows.length t.regionCols.enum (fun p _ => List.length_map _ _)
    calc (melt t).length
        = t.regionCols.enum.length * t.rows.length := h
      _ = t.rows.length * t.regionCols.length := by
          rw [List.enum_eq_enumFrom, List.enumFrom_length]
          exact Nat.mul_comm _ _
  · intro i j hi hj
    have hcell : j < (t.rows.get ⟨i, hi⟩).cells.length := by
      rw [hw _ (List.get_mem t.rows i hi)]
      exact hj
    refine ⟨(t.rows.get ⟨i, hi⟩).cells.get ⟨j, hcell⟩,
      List.getElem?_eq_getElem hcell, ?_⟩
    rw [melt_getElem? t i j hi hj]
    have hgd : (t.rows.get ⟨i, hi⟩).cells.getD j .missing
        = (t.rows.get ⟨i, hi⟩).cells.get ⟨j, hcell⟩ := by
      rw [List.getD_eq_getElem?_getD, List.getElem?_eq_getElem hcell]
      rfl
    rw [hgd]

/-- Witness for C2 on the spec's example table: one row, two region columns
(강남구, 노원구), checked at input position (row 0, column 1). -/
theorem c2_melt_fanout_w :
    (melt ⟨["강남구", "노원구"],
      [⟨"절도", "침입절도", [.num 10, .num 5]⟩]⟩).length = 1 * 2 ∧
    ∃ v : RawCount,
      (([⟨"절도", "침입절도", [RawCount.num 10, RawCount.num 5]⟩] :
          List WideRow).get ⟨0, by decide⟩).cells[1]? = some v ∧
      (melt ⟨["강남구", "노원구"],
        [⟨"절도", "침입절도", [.num 10, .num 5]⟩]⟩)[1 * 1 + 0]? =
        some { major := "절도", minor := "침입절도", region := "노원구", count := v } := by
  have h := c2_melt_fanout ⟨["강남구", "노원구"],
    [⟨"절도", "침입절도", [.num 10, .num 5]⟩]⟩ (by decide)
  exact ⟨h.1, h.2 0 1 (by decide) (by decide)⟩

/-! ### Partition lemmas for group-by sums -/

theorem sum_map_filter_split {α : Type} (p : α → Bool) (f : α → ℚ) :
    ∀ l : List α,
      ((l.filter p).map f).sum + ((l.filter fun x => !(p x)).map f).sum
        = (l.map f).sum := by
  intro l
  induction l with
  | nil => simp
  | cons a t ih =>
    cases hp : p a with
    | true =>
      simp [List.filter_cons, hp, List.sum_cons]
      linarith [ih]
    | false =>
      simp [List.filter_cons, hp, List.sum_cons]
      linarith [ih]

theorem sum_groups {α : Type} (key : α → String) (f : α → ℚ) :
    ∀ (ks : List String) (l : List α), ks.Nodup → (∀ x ∈ l, key x ∈ ks) →
      (ks.map fun k => ((l.filter fun x => key x == k).map f).sum).sum
        = (l.map f).sum := by
  intro ks
  induction ks with
  | nil =>
    intro l _ hmem
    cases l with
    | nil => simp
    | cons x t => exact absurd (hmem x (List.mem_cons_self x t)) (List.not_mem_nil (key x))
  | cons k ks ih =>
    intro l hnd hmem
    have hknotin : k ∉ ks := (List.nodup_cons.mp hnd).1
    have hndks : ks.Nodup := (List.nodup_cons.mp hnd).2
    set l' := l.filter (fun x => !(key x == k)) with hl'
    have hll' : ∀ k' ∈ ks, l.filter (fun x => key x == k')
        = l'.filter (fun x => key x == k') := by
      intro k' hk'
      have hne : k' ≠ k := fun he => hknotin (he ▸ hk')
      rw [hl', List.filter_filter]
      apply List.filter_congr
      intro x _
      cases hkx : key x == k' with
      | true =>
        have hxx : key x = k' := eq_of_beq hkx
        have hxk : (key x == k) = false := beq_eq_false_iff_ne.mpr (by rw [hxx]; exact hne)
        simp [hxk]
      | false => simp
    have hfilter : (ks.map fun k' => ((l.filter fun x => key x == k').map f).sum)
        = (ks.map fun k' => ((l'.filter fun x => key x == k').map f).sum) := by
      apply List.map_congr_left
      intro k' hk'
      rw [hll' k' hk']
    have hcons : ∀ x ∈ l', key x ∈ ks := by
      intro x hx
      have hxl : x ∈ l := List.mem_of_mem_filter hx
      have hstay := List.of_mem_filter hx
      have hkx : (key x == k) = false := by
        cases hb : key x == k with
        | false => rfl
        | true => rw [hb] at hstay; exact absurd hstay (by decide)
      cases List.mem_cons.mp (hmem x hxl) with
      | inl h =>
        have : (key x == k) = true := beq_of_eq h
        rw [hkx] at this
        exact absurd this (by decide)
      | inr h => exact h
    calc ((k :: ks).map fun k' => ((l.filter fun x => key x == k').map f).sum).sum
        = ((l.filter fun x => key x == k).map f).sum
          + (ks.map fun k' => ((l.filter fun x => key x == k').map f).sum).sum := by
          simp [List.map_cons, List.sum_cons]
      _ = ((l.filter fun x => key x == k).map f).sum + (l'.map f).sum := by
          rw [hfilter, ih l' hndks hcons]
      _ = (l.map f).sum := sum_map_filter_split (fun x => key x == k) f l

/-! ## Claim C5 — aggregation conservation -/

/-- C5: for any filtered table of joined records, the sum of `total_count`
over the by-region aggregate of lines 148-152 equals the sum of 횟수 over
the contributing records — the group-by neither loses nor double-counts any
record. -/
theorem c5_aggregation_conservation (l : List Row) :
    ((aggByRegion l).map (·.total)).sum = (l.map (·.count)).sum := by
  unfold aggByRegion
  simp only [List.map_map]
  exact sum_groups (fun r => r.region) (fun r => r.count)
    ((l.map (·.region)).dedup) l (List.nodup_dedup _)
    (fun x hx => List.mem_dedup.mpr (List.mem_map_of_mem _ hx))

/-! ## Claim C4 — share-of-total -/

theorem sum_map_div_mul {α : Type} (f : α → ℚ) (s c : ℚ) :
    ∀ m : List α, (m.map fun r => f r / s * c).sum = (m.map f).sum / s * c := by
  intro m
  induction m with
  | nil => simp
  | cons a t ih =>
    simp only [List.map_cons, List.sum_cons, ih]
    ring

/-- C4 counterexample: on a table whose single region has total 0, the grand
total is 0 and the map-mode block of lines 154-162 takes the warning branch,
so no share is computed for that region at all — the share is not "defined
as zero". -/
theorem c4_zero_total_no_shares :
    (aggByRegion zeroCountRows).length = 1 ∧
    ((aggByRegion zeroCountRows).map (·.total)).sum = 0 ∧
    mapModeShares zeroCountRows = none := by
  refine ⟨by simp [aggByRegion, zeroCountRows, List.dedup],
    by simp [aggByRegion, zeroCountRows, List.dedup],
    by simp [mapModeShares, aggByRegion, zeroCountRows, List.dedup]⟩

/-- C4 (amended): when the grand total of `total_count` is positive, the
비율 column is computed and its values sum to exactly 100; when the grand
total is zero the warning branch of line 155 is taken and no shares are
computed at all (`none`), so no division failure occurs. -/
theorem c4_share_of_total (l : List Row) :
    (0 < ((aggByRegion l).map (·.total)).sum →
      ∃ rows, mapModeShares l = some rows ∧ (rows.map (·.share)).sum = 100) ∧
    (((aggByRegion l).map (·.total)).sum = 0 → mapModeShares l = none) := by
  constructor
  · intro hpos
    have hs0 : ((aggByRegion l).map (·.total)).sum ≠ 0 := ne_of_gt hpos
    have hne : (aggByRegion l).isEmpty = false := by
      cases hm : aggByRegion l with
      | nil => rw [hm] at hpos; simp at hpos
      | cons a t => rfl
    refine ⟨(aggByRegion l).map fun r =>
      { region := r.region, total := r.total,
        share := r.total / ((aggByRegion l).map (·.total)).sum * 100 }, ?_, ?_⟩
    · simp [mapModeShares, hne, beq_eq_false_iff_ne.mpr hs0]
    · have hmm : (((aggByRegion l).map fun r =>
          ({ region := r.region, total := r.total,
             share := r.total / ((aggByRegion l).map (·.total)).sum * 100 } :
            ShareRow)).map (·.share))
          = (aggByRegion l).map fun r =>
              r.total / ((aggByRegion l).map (·.total)).sum * 100 := by
        rw [List.map_map]
        rfl
      rw [hmm,
        show ((aggByRegion l).map fun r =>
            r.total / ((aggByRegion l).map (·.total)).sum * 100).sum
          = ((aggByRegion l).map (·.total)).sum
              / ((aggByRegion l).map (·.total)).sum * 100
          from sum_map_div_mul (fun r : AggRow => r.total) _ 100 (aggByRegion l),
        div_self hs0]
      norm_num
  · intro h0
    simp [mapModeShares, h0]

/-- Witness for the amended C4: the two-region table with totals 10 and 5
gets shares summing to 100, and the zero-total table gets no shares. -/
theorem c4_share_of_total_w :
    (∃ rows, mapModeShares twoRegionRows = some rows ∧
      (rows.map (·.share)).sum = 100) ∧
    mapModeShares zeroCountRows = none :=
  ⟨(c4_share_of_total twoRegionRows).1
      (by simp [aggByRegion, twoRegionRows, List.dedup]; norm_num),
   (c4_share_of_total zeroCountRows).2
      (by simp [aggByRegion, zeroCountRows, List.dedup])⟩

/-! ## Claim C3 — join completeness -/

/-- A merged row that failed to acquire coordinates can only come from a
crime row whose region key has no entry in the centroid table. -/
theorem merged_coords_none (crime : List LongRow) (cents : List Centroid) :
    ∀ r ∈ mergedTable crime cents, r.coords = none →
      centLookup cents r.region = none := by
  intro r hr hnone
  unfold mergedTable coerceCounts at hr
  obtain ⟨m, hm, rfl⟩ := List.mem_map.mp hr
  unfold leftMerge at hm
  obtain ⟨a, _, hma⟩ := List.mem_flatMap.mp hm
  by_cases hfil : (cents.filter (fun c => c.region == a.region)).isEmpty
  · rw [if_pos hfil] at hma
    simp only [List.mem_singleton] at hma
    subst hma
    rw [centLookup, List.find?_eq_none]
    intro c hc
    exact List.filter_eq_nil_iff.mp (List.isEmpty_iff.mp hfil) c hc
  · rw [if_neg hfil] at hma
    obtain ⟨c', _, rfl⟩ := List.mem_map.mp hma
    simp at hnone

/-- C3: every record of the final table of `load_data` has coordinates, and
every merged record dropped by line 72 had a normalized region key with no
matching centroid — no row is retained with missing coordinates, and rows
are dropped only for unmatched geography. -/
theorem c3_join_completeness (crime : List LongRow) (cents : List Centroid) :
    (∀ r ∈ joinedTable crime cents, r.coords.isSome = true) ∧
    (∀ r ∈ mergedTable crime cents, r ∉ joinedTable crime cents →
      centLookup cents r.region = none) := by
  constructor
  · intro r hr
    exact (List.mem_filter.mp hr).2
  · intro r hr hnot
    have hpred : ¬(r.coords.isSome = true) := fun hp =>
      hnot (List.mem_filter.mpr ⟨hr, hp⟩)
    exact merged_coords_none crime cents r hr
      (Option.not_isSome_iff_eq_none.mp hpred)

/-- Witness for C3 on the example tables: the matched 강남구 record survives
with coordinates, and the dropped 중랑구 record indeed has no centroid. -/
theorem c3_join_completeness_w :
    (({ major := "절도", minor := "침입절도", region := "강남구",
        count := 10, coords := some (37, 127) } : Row).coords.isSome = true) ∧
    centLookup exCents "중랑구" = none :=
  ⟨(c3_join_completeness exCrime exCents).1 _ (by decide),
   (c3_join_completeness exCrime exCents).2
     { major := "폭력", minor := "상해", region := "중랑구",
       count := 0, coords := none } (by decide) (by decide)⟩

/-! ## Claim C6 — parse-or-zero count coercion -/

/-- C6: the coercion of line 71 preserves the row count (no row is dropped
because of its count), sends every non-numeric or missing count to exactly
0 (never to a missing value — the output count is a total rational), and
the subsequent dropna of line 72 keeps a row exactly according to its
coordinates, independent of its count. -/
theorem c6_parse_or_zero (crime : List LongRow) (cents : List Centroid) :
    (mergedTable crime cents).length = (leftMerge crime cents).length ∧
    (∀ (i : Nat) (m : MergedRow), (leftMerge crime cents)[i]? = some m →
      (m.count = RawCount.nonNumeric ∨ m.count = RawCount.missing) →
      ∃ r : Row, (mergedTable crime cents)[i]? = some r ∧ r.count = 0) ∧
    (∀ r ∈ mergedTable crime cents,
      (r ∈ joinedTable crime cents ↔ r.coords.isSome = true)) := by
  refine ⟨List.length_map _ _, ?_, ?_⟩
  · intro i m him hcase
    refine ⟨{ major := m.major, minor := m.minor, region := m.region,
              count := toNumericOrZero m.count, coords := m.coords }, ?_, ?_⟩
    · show (List.map _ (leftMerge crime cents))[i]? = _
      rw [List.getElem?_map, him]
      rfl
    · cases hcase with
      | inl h => rw [h]; rfl
      | inr h => rw [h]; rfl
  · intro r hr
    constructor
    · intro hj
      exact (List.mem_filter.mp hj).2
    · intro hs
      exact List.mem_filter.mpr ⟨hr, hs⟩

/-- Witness for C6: the 중랑구 record with a non-numeric raw count is merged
at index 1 and its coerced count is exactly 0, and the matched 강남구 record
is kept by the dropna exactly because its coordinates are present. -/
theorem c6_parse_or_zero_w :
    (∃ r : Row, (mergedTable exCrime exCents)[1]? = some r ∧ r.count = 0) ∧
    (({ major := "절도", minor := "침입절도", region := "강남구",
        count := 10, coords := some (37, 127) } : Row) ∈ joinedTable exCrime exCents ↔
      (some ((37 : ℚ), (127 : ℚ))).isSome = true) :=
  ⟨(c6_parse_or_zero exCrime exCents).2.1 1
      { major := "폭력", minor := "상해", region := "중랑구",
        count := .nonNumeric, coords := none }
      (by decide) (Or.inl rfl),
   (c6_parse_or_zero exCrime exCents).2.2 _ (by decide)⟩

/-! ## Claim C10 — one centroid per key and order-independent first -/

theorem map_region_map (ks : List String) (f : String → Centroid)
    (hf : ∀ k, (f k).region = k) : (ks.map f).map (·.region) = ks := by
  rw [List.map_map]
  have h : ((fun c : Centroid => c.region) ∘ f) = id := funext fun k => hf k
  rw [h, List.map_id]

/-- The centroid table of lines 54-57 has pairwise-distinct region keys. -/
theorem guCoords_keys_nodup (coords : List CoordRow) :
    ((guCoords coords).map (·.region)).Nodup := by
  unfold guCoords
  rw [map_region_map _ _ (fun k => rfl)]
  exact List.nodup_dedup _

/-- Under a duplicate-free centroid table, the coordinates of every merged
row are a function of its region key alone. -/
theorem leftMerge_coords_eq (crime : List LongRow) (cents : List Centroid)
    (hnd : (cents.map (·.region)).Nodup) :
    ∀ m ∈ leftMerge crime cents,
      m.coords = (centLookup cents m.region).map fun c => (c.lat, c.lon) := by
  intro m hm
  unfold leftMerge at hm
  obtain ⟨a, _, hma⟩ := List.mem_flatMap.mp hm
  by_cases hfil : (cents.filter (fun c => c.region == a.region)).isEmpty
  · rw [if_pos hfil] at hma
    simp only [List.mem_singleton] at hma
    subst hma
    have hnone : centLookup cents a.region = none := by
      rw [centLookup, List.find?_eq_none]
      intro c hc
      exact List.filter_eq_nil_iff.mp (List.isEmpty_iff.mp hfil) c hc
    show (none : Option (ℚ × ℚ))
      = (centLookup cents a.region).map fun c => (c.lat, c.lon)
    rw [hnone]
    rfl
  · rw [if_neg hfil] at hma
    obtain ⟨c', hc', rfl⟩ := List.mem_map.mp hma
    have hc'mem : c' ∈ cents := (List.mem_filter.mp hc').1
    have hc'beq : (c'.region == a.region) = true := (List.mem_filter.mp hc').2
    cases hfind : centLookup cents a.region with
    | none =>
      rw [centLookup, List.find?_eq_none] at hfind
      exact absurd hc'beq (hfind c' hc'mem)
    | some c'' =>
      have hfind' : cents.find? (fun c => c.region == a.region) = some c'' := hfind
      have h1' := List.find?_some hfind'
      have h1 : (c''.region == a.region) = true := h1'
      have h2 : c'' ∈ cents := List.mem_of_find?_eq_some hfind'
      have heq : c'' = c' := List.inj_on_of_nodup_map hnd h2 hc'mem
        (by rw [eq_of_beq h1, eq_of_beq hc'beq])
      rw [heq]
      rfl

/-- All rows of the final joined table sharing a region key carry identical
coordinates: the centroid table is keyed uniquely and the left join is
many-to-one. -/
theorem joined_coords_determined (crime : List LongRow) (coords : List CoordRow) :
    ∀ r ∈ joinedTable crime (guCoords coords),
    ∀ s ∈ joinedTable crime (guCoords coords),
      r.region = s.region → r.coords = s.coords := by
  intro r hr s hs hreg
  have hr' : r ∈ mergedTable crime (guCoords coords) := (List.mem_filter.mp hr).1
  have hs' : s ∈ mergedTable crime (guCoords coords) := (List.mem_filter.mp hs).1
  unfold mergedTable coerceCounts at hr' hs'
  obtain ⟨mr, hmr, rfl⟩ := List.mem_map.mp hr'
  obtain ⟨ms, hms, rfl⟩ := List.mem_map.mp hs'
  have e1 := leftMerge_coords_eq _ _ (guCoords_keys_nodup coords) mr hmr
  have e2 := leftMerge_coords_eq _ _ (guCoords_keys_nodup coords) ms hms
  show mr.coords = ms.coords
  rw [e1, e2, show mr.region = ms.region from hreg]

/-- If a permutation relates two lists on which `g` is constant, their first
`g`-image agrees. -/
theorem head?_filterMap_of_perm {α β : Type} (g : α → Option β)
    (l₁ l₂ : List α) (hp : l₁.Perm l₂)
    (hsame : ∀ x ∈ l₁, ∀ y ∈ l₁, g x = g y) :
    (l₁.filterMap g).head? = (l₂.filterMap g).head? := by
  cases l₁ with
  | nil =>
    rw [← hp.nil_eq]
  | cons a t =>
    cases l₂ with
    | nil => exact absurd hp.eq_nil (by simp)
    | cons b u =>
      have hga : ∀ x ∈ a :: t, g x = g a := fun x hx =>
        hsame x hx a (List.mem_cons_self a t)
      have hgb : g b = g a := hga b (hp.mem_iff.mpr (List.mem_cons_self b u))
      cases hval : g a with
      | none =>
        have h1 : (a :: t).filterMap g = [] :=
          List.filterMap_eq_nil_iff.mpr fun x hx => by rw [hga x hx, hval]
        have h2 : (b :: u).filterMap g = [] :=
          List.filterMap_eq_nil_iff.mpr fun x hx => by
            rw [hga x (hp.mem_iff.mpr hx), hval]
        rw [h1, h2]
      | some v =>
        rw [List.filterMap_cons_some (by rw [hval]),
          List.filterMap_cons_some (by rw [hgb, hval])]
        rfl

/-- C10: the centroid table built by lines 54-57 has exactly one row per
region key; consequently all joined records sharing a region key carry
identical coordinates, and the `'first'` selection of latitude/longitude in
the aggregation of lines 148-152 does not depend on the order of the joined
rows. -/
theorem c10_first_order_independent (crime : List LongRow)
    (coords : List CoordRow) (l' : List Row)
    (hp : (joinedTable crime (guCoords coords)).Perm l') :
    ((guCoords coords).map (·.region)).Nodup ∧
    (∀ r ∈ joinedTable crime (guCoords coords),
      ∀ s ∈ joinedTable crime (guCoords coords),
      r.region = s.region → r.coords = s.coords) ∧
    (∀ k : String, aggCoordOf (joinedTable crime (guCoords coords)) k
      = aggCoordOf l' k) := by
  refine ⟨guCoords_keys_nodup coords, joined_coords_determined crime coords, ?_⟩
  intro k
  unfold aggCoordOf
  apply head?_filterMap_of_perm _ _ _ (hp.filter _)
  intro x hx y hy
  have hxk : (x.region == k) = true := (List.mem_filter.mp hx).2
  have hyk : (y.region == k) = true := (List.mem_filter.mp hy).2
  exact joined_coords_determined crime coords x (List.mem_filter.mp hx).1
    y (List.mem_filter.mp hy).1 (by rw [eq_of_beq hxk, eq_of_beq hyk])

/-- Witness for C10: on the concrete two-record 강남구 table, the
`'first'`-selected coordinates agree between the pipeline's row order and
the swapped order. -/
theorem c10_first_order_independent_w :
    aggCoordOf (joinedTable exCrime2 (guCoords exCoords2)) "강남구"
      = aggCoordOf
          [{ major := "폭력", minor := "상해", region := "강남구",
             count := 7, coords := some (37, 127) },
           { major := "절도", minor := "침입절도", region := "강남구",
             count := 10, coords := some (37, 127) }] "강남구" := by
  have hn : normCoordKey "강남구" = "강남구" := by decide
  have hj : joinedTable exCrime2 (guCoords exCoords2)
      = [{ major := "절도", minor := "침입절도", region := "강남구",
           count := 10, coords := some (37, 127) },
         { major := "폭력", minor := "상해", region := "강남구",
           count := 7, coords := some (37, 127) }] := by
    simp [joinedTable, mergedTable, dropUnmatched, coerceCounts, leftMerge,
      guCoords, seoulNormalized, exCrime2, exCoords2, meanQ, List.dedup,
      toNumericOrZero, hn]
  exact (c10_first_order_independent exCrime2 exCoords2 _
    (by rw [hj]; exact List.Perm.swap _ _ _)).2.2 "강남구"

/-! ## Claim C7 — encoding fallback and the failing raise of line 19 -/

/-- C7 evidence: the loader tries utf-8, cp949, euc-kr in their fixed order —
when only euc-kr parses it falls through to it, and when every candidate
succeeds the earliest wins.  But when every candidate fails, line 19's
one-argument `UnicodeDecodeError(msg)` constructor call itself raises
`TypeError` (the constructor requires five arguments), so the escaping
exception names no file and is caught by the generic handler of line 83
rather than the encoding handler of line 76; the load still yields the
empty table, but with the generic diagnostic. -/
theorem c7_decode_failure_eval :
    tryReadCsv parseOnlyEucKr "seoul_crime_data.csv"
      = .ok [{ major := "절도", minor := "침입절도", region := "강남구",
               count := .num 10 }] ∧
    tryReadCsv parseAlways "seoul_crime_data.csv"
      = .ok [{ major := "utf-8", minor := "", region := "", count := .missing }] ∧
    tryReadCsv parseNever "seoul_crime_data.csv"
      = .error (.typeError "function takes exactly 5 arguments (1 given)") ∧
    loadDataHandle ([] : List LongRow) (tryReadCsv parseNever "seoul_crime_data.csv")
      = ([], "Data Processing Error: 데이터 처리 중 일반 오류 발생") := by
  refine ⟨rfl, rfl, rfl, rfl⟩

/-! ## Claim C1 — the two region-key normalizations -/

/-- C1 counterexample: on the key `서울종로구` the crime-side normalization of
line 48 (replace `서울`, then strip) and the coordinate-side normalization of
line 51 (strip only) produce different normalized keys, so the two sides do
not apply the same transformations. -/
theorem c1_normalizations_differ :
    normCrimeKey "서울종로구" ≠ normCoordKey "서울종로구" := by
  decide

/-- C1 (amended): both sides trim whitespace identically, but the
`서울`-removal of line 48 runs only on the crime side; the two normalizations
agree exactly on keys containing no occurrence of `서울`. -/
theorem c1_norm_agree_without_lit (s : String) (h : hasSubStr "서울" s = false) :
    normCrimeKey s = normCoordKey s := by
  have h' : hasSub seoulLit s.toList = false := h
  unfold normCrimeKey normCoordKey normCrimeChars normCoordChars
  rw [pyReplace_of_not_hasSub _ _ h']

/-- Witness for the amended C1 at the concrete key `종로구 `. -/
theorem c1_norm_agree_without_lit_w :
    hasSubStr "서울" "종로구 " = false ∧ normCrimeKey "종로구 " = normCoordKey "종로구 " :=
  ⟨by decide, c1_norm_agree_without_lit "종로구 " (by decide)⟩

/-! ## Claim C8 — idempotence and order-independence of normalization -/

/-- C8 counterexample: the crime-side normalization of line 48 is not
idempotent — `서서울울` normalizes to `서울` (the removal creates a fresh
occurrence of the literal), which a second application erases — and trimming
and literal-stripping do not commute on `서울 x`; both inputs contain exactly
one occurrence of the literal. -/
theorem c8_not_idempotent :
    subOccurrences seoulLit "서서울울".toList = 1 ∧
    normCrimeKey (normCrimeKey "서서울울") ≠ normCrimeKey "서서울울" ∧
    subOccurrences seoulLit "서울 x".toList = 1 ∧
    pyStrip (pyReplace seoulLit "서울 x".toList) ≠
      pyReplace seoulLit (pyStrip "서울 x".toList) := by
  refine ⟨by decide, by decide, by decide, by decide⟩

/-- C8 (amended): the line 48 normalization is idempotent on every key whose
normalized form contains no occurrence of the literal `서울` (a single
replace pass can create a fresh occurrence, which is where idempotence
fails), and trimming and literal-stripping commute on inputs containing no
occurrence of the literal. -/
theorem c8_idempotent_without_lit (s : String) :
    (hasSubStr "서울" (normCrimeKey s) = false →
      normCrimeKey (normCrimeKey s) = normCrimeKey s) ∧
    (hasSubStr "서울" s = false →
      pyStrip (pyReplace seoulLit s.toList) = pyReplace seoulLit (pyStrip s.toList)) := by
  constructor
  · intro h
    have h' : hasSub seoulLit (normCrimeChars s.toList) = false := by
      have h2 := h
      rw [hasSubStr, normCrimeKey, toList_asString] at h2
      exact h2
    have key : normCrimeChars (normCrimeChars s.toList) = normCrimeChars s.toList := by
      show pyStrip (pyReplace seoulLit (normCrimeChars s.toList)) = _
      rw [pyReplace_of_not_hasSub _ _ h']
      show pyStrip (pyStrip (pyReplace seoulLit s.toList)) = _
      rw [pyStrip_idem]
      rfl
    show (normCrimeChars ((normCrimeKey s).toList)).asString = (normCrimeChars s.toList).asString
    rw [normCrimeKey, toList_asString, key]
  · intro h
    have h' : hasSub seoulLit s.toList = false := h
    rw [pyReplace_of_not_hasSub _ _ h',
      pyReplace_of_not_hasSub _ _ (hasSub_pyStrip _ _ h')]

/-- Witness for the amended C8 at the concrete keys `종로구` and ` 마포구 `. -/
theorem c8_idempotent_without_lit_w :
    (hasSubStr "서울" (normCrimeKey "종로구") = false ∧
      normCrimeKey (normCrimeKey "종로구") = normCrimeKey "종로구") ∧
    (hasSubStr "서울" " 마포구 " = false ∧
      pyStrip (pyReplace seoulLit " 마포구 ".toList) =
        pyReplace seoulLit (pyStrip " 마포구 ".toList)) :=
  ⟨⟨by decide, (c8_idempotent_without_lit "종로구").1 (by decide)⟩,
   ⟨by decide, (c8_idempotent_without_lit " 마포구 ").2 (by decide)⟩⟩

/-! ## Claim C9 — minimum-highlight suppression in the degenerate case -/

/-- C9: the minimum-highlight rule of line 194 fires only when the marker's
count equals the minimum and the minimum is strictly below the maximum; in
the degenerate case min = max no marker is highlighted as the minimum, so no
marker carries both extreme highlights. -/
theorem c9_min_highlight_guard (count minCount maxCount : ℚ) :
    (markerHighlight count minCount maxCount = .minExtreme →
      count = minCount ∧ minCount < maxCount) ∧
    (minCount = maxCount → markerHighlight count minCount maxCount ≠ .minExtreme) := by
  constructor
  · intro h
    unfold markerHighlight at h
    by_cases h1 : count = maxCount ∧ 0 < maxCount
    · rw [if_pos h1] at h
      exact absurd h (by decide)
    · rw [if_neg h1] at h
      by_cases h2 : count = minCount ∧ minCount < maxCount
      · exact h2
      · rw [if_neg h2] at h
        exact absurd h (by decide)
  · intro he
    unfold markerHighlight
    have h2 : ¬(count = minCount ∧ minCount < maxCount) := by
      rintro ⟨-, hlt⟩
      rw [he] at hlt
      exact lt_irrefl maxCount hlt
    by_cases h1 : count = maxCount ∧ 0 < maxCount
    · rw [if_pos h1]
      decide
    · rw [if_neg h1, if_neg h2]
      decide

/-- Witness for C9: a marker below a distinct maximum is legitimately the
minimum, and with min = max = 4 the rule is suppressed. -/
theorem c9_min_highlight_guard_w :
    ((2 : ℚ) = 2 ∧ (2 : ℚ) < 5) ∧ markerHighlight 3 4 4 ≠ .minExtreme :=
  ⟨(c9_min_highlight_guard 2 2 5).1 (by decide),
   (c9_min_highlight_guard 3 4 4).2 rfl⟩

end CrimeMap
